import Mathlib

/-!
Verification development for the proxy-panel repository.

The source file `proxy_panel.py` is a Flask admin panel over three files:
a proxy pool file (one `host:port[:user:pass]` line per entry), a JSON
client database, and a JSON admin-credentials file.  Pure helpers
(`parse_proxy_line`, `compute_stats`, `next_client_id`, ...) are embedded
as Lean functions; filesystem state is passed explicitly as a map from
path to optional content; the outbound HTTP request performed by
`check_proxy` is an oracle argument (`none` = the request raised, a
timeout or connection error; `some code` = a response with that status
code).  Components of the provisioning core that the design document
describes but that are not present in the repository (identity
allocator, verification pipeline) are modelled from the design text and
marked as such.
-/

namespace ProxyPanel

/-! ## Python string primitives -/

/-- Whitespace characters removed by the Python method `str.strip()`
(ASCII subset, which is what the data of this program contains). -/
def isPySpace (c : Char) : Bool :=
  c = ' ' || c = '\t' || c = '\n' || c = '\r' || c = '\x0b' || c = '\x0c'

/-- Embedding of the Python method `str.strip()`: remove leading and
trailing whitespace. -/
def pyStrip (s : String) : String :=
  ⟨((s.data.dropWhile isPySpace).reverse.dropWhile isPySpace).reverse⟩

/-- Split a character list at every occurrence of `sep`, keeping empty
segments, as the Python method `str.split(sep)` does for a one-character
separator. -/
def splitOnChar (sep : Char) : List Char → List (List Char)
  | [] => [[]]
  | c :: rest =>
    if c = sep then
      [] :: splitOnChar sep rest
    else
      match splitOnChar sep rest with
      | [] => [[c]]
      | f :: fs => (c :: f) :: fs

/-- Embedding of the Python expression `s.split(":")`. -/
def pySplitColon (s : String) : List String :=
  (splitOnChar ':' s.data).map (fun cs => ⟨cs⟩)

/-- Whether the string begins with the comment character, as the Python
expression `s.startswith("#")` used by the source. -/
def startsHash (s : String) : Bool :=
  match s.data with
  | [] => false
  | c :: _ => c = '#'

/-- Decimal digits of a candidate integer literal: nonempty, every
character a digit or an underscore, starting and ending with a digit and
with no two consecutive underscores.  This is the body accepted by the
Python conversion `int(s)` after sign and whitespace handling. -/
def pyDigitsOk : List Char → Bool
  | [] => true
  | ['_'] => false
  | '_' :: '_' :: _ => false
  | '_' :: c :: rest => c.isDigit && pyDigitsOk rest
  | c :: rest => c.isDigit && pyDigitsOk rest

/-- A valid unsigned integer body: nonempty, first character a digit,
and the underscore discipline of `pyDigitsOk` throughout. -/
def pyBodyOk (l : List Char) : Bool :=
  match l with
  | [] => false
  | c :: _ => c.isDigit && pyDigitsOk l

/-- Numeric value of a digit list, ignoring underscores. -/
def pyDigitsVal (l : List Char) : Nat :=
  (l.filter (fun c => c ≠ '_')).foldl (fun a c => a * 10 + (c.toNat - 48)) 0

/-- Embedding of the Python conversion `int(s)` for base 10 on ASCII
input: strip whitespace, optional sign, digits with underscores allowed
between digits; `none` when the conversion raises `ValueError`. -/
def pyInt (s : String) : Option Int :=
  match (pyStrip s).data with
  | '+' :: rest => if pyBodyOk rest then some (pyDigitsVal rest) else none
  | '-' :: rest => if pyBodyOk rest then some (-(pyDigitsVal rest : Int)) else none
  | l => if pyBodyOk l then some (pyDigitsVal l) else none

/-! ## Configuration constants of the panel -/

/-- Path of the published proxy pool file. -/
def PROXY_SOURCE_FILE : String := "/root/proxies.txt"

/-- Path of the JSON client database. -/
def DB_FILE : String := "/root/proxy_panel_db.json"

/-- Path of the JSON admin-credentials file. -/
def CONFIG_FILE : String := "/root/proxy_panel_config.json"

/-- Target of the health-check request. -/
def CHECK_TEST_URL : String := "https://www.google.com"

/-- Per-request timeout of the health check, in seconds. -/
def CHECK_TIMEOUT : Nat := 20

/-- Whether a URL uses the https scheme. -/
def isHttpsUrl (s : String) : Bool :=
  "https://".data.isPrefixOf s.data

/-! ## parse_proxy_line -/

/-- The record returned by `parse_proxy_line`: host, integer port and
optional credentials. -/
structure ProxyInfo where
  host : String
  port : Int
  user : Option String
  password : Option String
  deriving Repr, DecidableEq

/-- Embedding of `parse_proxy_line` (source lines 175-202): strip the
line; reject empty and comment lines; split on `:`; accept exactly two
or four fields; convert the port with `int`, rejecting on failure. -/
def parse_proxy_line (line : String) : Option ProxyInfo :=
  let l := pyStrip line
  if l = "" then none
  else if startsHash l then none
  else
    match pySplitColon l with
    | [host, port] =>
      match pyInt port with
      | some p => some ⟨host, p, none, none⟩
      | none => none
    | [host, port, user, password] =>
      match pyInt port with
      | some p => some ⟨host, p, some user, some password⟩
      | none => none
    | _ => none

/-! ## Filesystem model

A filesystem state maps a path to the content of the file at that path,
`none` when no file exists there. -/

/-- Filesystem state: path to optional content. -/
def FS : Type := String → Option String

/-- Write (create or overwrite) the file at `p` with content `v`. -/
def setFile (fs : FS) (p v : String) : FS :=
  fun q => if q = p then some v else fs q

/-- Atomic rename of `src` over `dst`, as `os.replace`: afterwards `dst`
holds what `src` held and `src` is gone. -/
def renameFile (fs : FS) (src dst : String) : FS :=
  fun q => if q = dst then fs src else if q = src then none else fs q

/-- The temporary path used by `save_json` for target `p`. -/
def tmpPath (p : String) : String := p ++ ".tmp"

/-- Trace of every filesystem state reachable while `save_json path
data` runs (source lines 53-57): the initial state, one state per
partially written prefix of the serialized data in the temporary file,
and the final state after `os.replace` renames the temporary file over
the target in one step. -/
def save_json_states (fs : FS) (path data : String) : List FS :=
  fs ::
    ((data.data.inits.map (fun c => setFile fs (tmpPath path) ⟨c⟩)) ++
      [renameFile (setFile fs (tmpPath path) data) (tmpPath path) path])

/-- Embedding of `save_json` itself: the final state of the trace. -/
def save_json (fs : FS) (path data : String) : FS :=
  renameFile (setFile fs (tmpPath path) data) (tmpPath path) path

/-! ## load_proxy_list -/

/-- Embedding of `load_proxy_list` (source lines 127-137): when the pool
file is missing return the empty list, otherwise keep every stripped
line that is nonempty and not a comment. -/
def load_proxy_list (fs : FS) : List String :=
  match fs PROXY_SOURCE_FILE with
  | none => []
  | some content =>
    ((splitOnChar '\n' content.data).map (fun cs => pyStrip ⟨cs⟩)).filter
      (fun l => !(l = "" || startsHash l))

/-! ## check_proxy and the per-endpoint check route -/

/-- Python truthiness of an optional string: `None` and the empty string
are falsy. -/
def pyTruthyOpt (o : Option String) : Bool :=
  match o with
  | none => false
  | some s => s ≠ ""

/-- Embedding of `build_proxy_url` (source lines 205-209). -/
def build_proxy_url (i : ProxyInfo) : String :=
  if pyTruthyOpt i.user && pyTruthyOpt i.password then
    "http://" ++ i.user.getD "" ++ ":" ++ i.password.getD "" ++ "@" ++
      i.host ++ ":" ++ toString i.port
  else
    "http://" ++ i.host ++ ":" ++ toString i.port

/-- Embedding of `check_proxy` (source lines 212-228).  The outcome of
the single `requests.get` call is the oracle `resp`: `none` when the
call raised (timeout, connection error, any exception — the source
catches them all and returns `False`), `some code` when a response with
status `code` was received.  An unparsable line returns `False` before
any request is made. -/
def check_proxy (resp : Option Nat) (line : String) : Bool :=
  match parse_proxy_line line with
  | none => false
  | some _ =>
    match resp with
    | none => false
    | some code => decide (200 ≤ code) && decide (code < 400)

/-- The list of outbound requests `check_proxy` issues for a line: one
request to `CHECK_TEST_URL` when the line parses, none otherwise. -/
def check_proxy_requests (line : String) : List String :=
  match parse_proxy_line line with
  | none => []
  | some _ => [CHECK_TEST_URL]

/-- Embedding of the route `proxies_check_one` (source lines 1139-1151):
`proxyField` is the `proxy` member of the request body when present; the
result is the JSON `status` string and the HTTP response code. -/
def proxies_check_one (proxyField : Option String) (resp : Option Nat) :
    String × Nat :=
  let line := pyStrip (proxyField.getD "")
  if line = "" then ("fail", 400)
  else (if check_proxy resp line then "ok" else "fail", 200)

/-- State-passing form of `check_proxy`: the body of the source function
contains no filesystem operation (it parses the line, builds the proxy
URL and performs one network request), so its faithful effectful
translation threads the filesystem state through unchanged. -/
def check_proxy_st (fs : FS) (resp : Option Nat) (line : String) :
    FS × Bool :=
  (fs, check_proxy resp line)

/-- State-passing form of the route `proxies_check_one`; like
`check_proxy` its body performs no filesystem operation. -/
def proxies_check_one_st (fs : FS) (proxyField : Option String)
    (resp : Option Nat) : FS × (String × Nat) :=
  (fs, proxies_check_one proxyField resp)

/-- A sequence of per-endpoint check requests against the route,
threading the filesystem state. -/
def run_checks (fs : FS) : List (Option String × Option Nat) →
    FS × List (String × Nat)
  | [] => (fs, [])
  | (pf, resp) :: rest =>
    let r := proxies_check_one_st fs pf resp
    let rs := run_checks r.1 rest
    (rs.1, r.2 :: rs.2)

/-- One monitoring round: classify every line of the list with
`check_proxy`, consulting the per-line oracle. -/
def run_round (oracle : String → Option Nat) (lines : List String) :
    List Bool :=
  lines.map (fun l => check_proxy (oracle l) l)

/-! ## Client database

The JSON database holds a list of clients and a dictionary
`assigned_proxies` from proxy line to owning client id.  The dictionary
is embedded as an association list (insertion order kept, keys unique in
every state the program produces). -/

/-- One client record, as stored in the database. -/
structure Client where
  id : Nat
  name : String
  count : Int
  proxies : List String
  created_at : String
  deriving Repr, DecidableEq

/-- The dictionary `assigned_proxies`. -/
def Dict : Type := List (String × Nat)

/-- Lookup of a key in the dictionary. -/
def dictGet : Dict → String → Option Nat
  | [], _ => none
  | (k, v) :: rest, key => if key = k then some v else dictGet rest key

/-- Update or insert of a binding, as assignment to a Python dict: an
existing key keeps its position, a new key is appended. -/
def dictSet : Dict → String → Nat → Dict
  | [], k, v => [(k, v)]
  | (k', v') :: rest, k, v =>
    if k = k' then (k', v) :: rest else (k', v') :: dictSet rest k v

/-- Removal of a key, as `dict.pop(k, None)`: drop the first binding of
the key, identity when absent. -/
def dictPop : Dict → String → Dict
  | [], _ => []
  | (k', v') :: rest, k =>
    if k = k' then rest else (k', v') :: dictPop rest k

/-- The keys of the dictionary, in order. -/
def keysOf (d : Dict) : List String := d.map Prod.fst

/-- Assign every proxy of `ps` to client `cid`, in order, as the source
loop `for p in selected: db["assigned_proxies"][p] = client_id`. -/
def assignMany (d : Dict) (ps : List String) (cid : Nat) : Dict :=
  ps.foldl (fun acc p => dictSet acc p cid) d

/-- Remove every proxy of `ps`, in order, as the source loop
`for p in removed_proxies: db["assigned_proxies"].pop(p, None)`. -/
def popMany (d : Dict) (ps : List String) : Dict :=
  ps.foldl (fun acc p => dictPop acc p) d

/-- The database state. -/
structure DB where
  clients : List Client
  assigned_proxies : Dict

/-- Largest client id in a list, zero when empty. -/
def maxId : List Client → Nat
  | [] => 0
  | c :: rest => max c.id (maxId rest)

/-- Embedding of `next_client_id` (source lines 117-120). -/
def next_client_id (db : DB) : Nat :=
  if db.clients = [] then 1 else maxId db.clients + 1

/-- Embedding of the database mutation of the POST branch of the route
`clients` (source lines 785-829): parse the requested count with `int`
(zero on failure); on an empty name, a non-positive count or too few
available proxies the database is left unchanged; otherwise the first
`count` unassigned pool entries are granted to a fresh client. -/
def create_client (allProxies : List String) (db : DB) (name : String)
    (count_str : String) (created_at : String) : DB :=
  let count : Int := (pyInt count_str).getD 0
  if name = "" then db
  else if count ≤ 0 then db
  else
    let available := allProxies.filter
      (fun p => (dictGet db.assigned_proxies p).isNone)
    if (available.length : Int) < count then db
    else
      let selected := available.take count.toNat
      let cid := next_client_id db
      ⟨db.clients ++ [⟨cid, name, count, selected, created_at⟩],
        assignMany db.assigned_proxies selected cid⟩

/-- The proxies of every client with the given id, in order, as the
collection loop of the route `delete_client`. -/
def collectProxies : List Client → Nat → List String
  | [], _ => []
  | c :: rest, cid =>
    if c.id = cid then c.proxies ++ collectProxies rest cid
    else collectProxies rest cid

/-- Embedding of the database mutation of the route `delete_client`
(source lines 935-950): drop every client with the id and pop each of
its proxies from `assigned_proxies`. -/
def delete_client (db : DB) (client_id : Nat) : DB :=
  ⟨db.clients.filter (fun c => decide (c.id ≠ client_id)),
    popMany db.assigned_proxies (collectProxies db.clients client_id)⟩

/-- Well-formedness of a database state: dictionary keys are unique,
client ids are unique, every binding points at a client owning the
proxy, every proxy of every client is bound to that client, and no
proxy belongs to two clients.  The last three conjuncts say exactly
that the key set of `assigned_proxies` is the union of the proxies of
all clients, each key mapped to the id of the unique client holding
it. -/
structure WFdb (db : DB) : Prop where
  keys_nodup : (keysOf db.assigned_proxies).Nodup
  ids_nodup : (db.clients.map Client.id).Nodup
  assigned_to_owner : ∀ p cid, dictGet db.assigned_proxies p = some cid →
    ∃ c, c ∈ db.clients ∧ c.id = cid ∧ p ∈ c.proxies
  owner_assigned : ∀ c ∈ db.clients, ∀ p ∈ c.proxies,
    dictGet db.assigned_proxies p = some c.id
  unique_owner : ∀ c ∈ db.clients, ∀ c' ∈ db.clients, ∀ p,
    p ∈ c.proxies → p ∈ c'.proxies → c = c'

/-! ## compute_stats -/

/-- The counters produced by `compute_stats`. -/
structure Stats where
  total_proxies : Int
  assigned_proxies : Int
  available_proxies : Int
  clients_count : Int
  deriving Repr, DecidableEq

/-- Embedding of `compute_stats` (source lines 140-155): the assigned
count is the size of the set intersection of the dictionary keys with
the pool lines currently in the file, and the available count is the
total minus it. -/
def compute_stats (db : DB) (fs : FS) : Stats :=
  let all_proxies := load_proxy_list fs
  let assignedCard :=
    ((keysOf db.assigned_proxies).toFinset ∩ all_proxies.toFinset).card
  { total_proxies := (all_proxies.length : Int)
    assigned_proxies := (assignedCard : Int)
    available_proxies := (all_proxies.length : Int) - (assignedCard : Int)
    clients_count := (db.clients.length : Int) }

/-! ## Identity allocator (modelled from the design document) -/

/-- Modelled from the spec: the Identity Allocator of the provisioning
core is not present in the repository; its port mapping is given by the
design text as `port = BASE_PORT_1 + index` when
`index < MAX_PER_INSTANCE` and `port = BASE_PORT_2 +
(index - MAX_PER_INSTANCE)` otherwise. -/
def identityPort (B1 B2 MAX idx : Nat) : Nat :=
  if idx < MAX then B1 + idx else B2 + (idx - MAX)

/-- Modelled from the spec: the instance chosen for an index, 1 for the
first `MAX_PER_INSTANCE` indices and 2 afterwards. -/
def identityInstance (MAX idx : Nat) : Nat :=
  if idx < MAX then 1 else 2

/-- Modelled from the spec: the inverse lookup `sessionForPort`, which
returns the owning index for a port inside either instance range and
`none` (NotFound) for any port outside both ranges. -/
def sessionForPort (B1 B2 MAX port : Nat) : Option Nat :=
  if B1 ≤ port ∧ port < B1 + MAX then some (port - B1)
  else if B2 ≤ port ∧ port < B2 + MAX then some (MAX + (port - B2))
  else none

/-! ## Verification pipeline (modelled from the design document) -/

/-- Modelled from the spec: one raw endpoint entry of the verification
pipeline, which is not present in the repository. -/
structure RawEntry where
  address : String
  port : Nat
  user : String
  password : String
  deriving Repr, DecidableEq

/-- Modelled from the spec: the published-list line of an entry, format
`address:port:username:password`. -/
def formatEntry (e : RawEntry) : String :=
  e.address ++ ":" ++ toString e.port ++ ":" ++ e.user ++ ":" ++ e.password

/-- Modelled from the spec: the verification pass over the raw entries.
The oracle `obs` gives the observed public address of the probe through
an entry, `none` when no response was received.  An entry is accepted
iff a response was received and the observed address equals the expected
address; the published list is built from accepted entries only. -/
def verifyPublish (obs : RawEntry → Option String)
    (entries : List RawEntry) : List String :=
  (entries.filter (fun e => decide (obs e = some e.address))).map formatEntry

/-! ## Theorems -/

/-- Splitting the empty string yields one empty field. -/
theorem pySplitColon_empty : pySplitColon "" = [""] := rfl

/-- Claim C1: for a stripped line with four colon-separated fields whose
port field converts as an integer and which is not a comment,
`parse_proxy_line` returns the record with that host, port and
credentials; for two fields it returns the record without credentials;
a line with any other number of fields, a non-integer port field, an
empty (after stripping) line, or a comment line yields `none`. -/
theorem parse_proxy_line_correct :
    (∀ line h p u pw n, pySplitColon (pyStrip line) = [h, p, u, pw] →
      startsHash (pyStrip line) = false → pyInt p = some n →
      parse_proxy_line line = some ⟨h, n, some u, some pw⟩) ∧
    (∀ line h p n, pySplitColon (pyStrip line) = [h, p] →
      startsHash (pyStrip line) = false → pyInt p = some n →
      parse_proxy_line line = some ⟨h, n, none, none⟩) ∧
    (∀ line, (pySplitColon (pyStrip line)).length ≠ 2 →
      (pySplitColon (pyStrip line)).length ≠ 4 →
      parse_proxy_line line = none) ∧
    (∀ line h p rest, pySplitColon (pyStrip line) = h :: p :: rest →
      pyInt p = none → parse_proxy_line line = none) ∧
    (∀ line, pyStrip line = "" → parse_proxy_line line = none) ∧
    (∀ line, startsHash (pyStrip line) = true →
      parse_proxy_line line = none) := by
  refine ⟨?_, ?_, ?_, ?_, ?_, ?_⟩
  · intro line h p u pw n hsplit hhash hport
    have hne : pyStrip line ≠ "" := by
      intro h0
      rw [h0, pySplitColon_empty] at hsplit
      exact absurd (congrArg List.length hsplit) (by simp)
    simp [parse_proxy_line, hne, hhash, hsplit, hport]
  · intro line h p n hsplit hhash hport
    have hne : pyStrip line ≠ "" := by
      intro h0
      rw [h0, pySplitColon_empty] at hsplit
      exact absurd (congrArg List.length hsplit) (by simp)
    simp [parse_proxy_line, hne, hhash, hsplit, hport]
  · intro line h2 h4
    by_cases he : pyStrip line = ""
    · simp [parse_proxy_line, he]
    by_cases hh : startsHash (pyStrip line)
    · simp [parse_proxy_line, he, hh]
    rcases hs : pySplitColon (pyStrip line) with
      _ | ⟨a, _ | ⟨b, _ | ⟨c, _ | ⟨d, _ | ⟨e, tl⟩⟩⟩⟩⟩
    · simp [parse_proxy_line, he, hh, hs]
    · simp [parse_proxy_line, he, hh, hs]
    · rw [hs] at h2; simp at h2
    · simp [parse_proxy_line, he, hh, hs]
    · rw [hs] at h4; simp at h4
    · simp [parse_proxy_line, he, hh, hs]
  · intro line h p rest hsplit hport
    by_cases he : pyStrip line = ""
    · simp [parse_proxy_line, he]
    by_cases hh : startsHash (pyStrip line)
    · simp [parse_proxy_line, he, hh]
    rcases rest with _ | ⟨u, _ | ⟨pw, _ | ⟨x, tl⟩⟩⟩
    · simp [parse_proxy_line, he, hh, hsplit, hport]
    · simp [parse_proxy_line, he, hh, hsplit]
    · simp [parse_proxy_line, he, hh, hsplit, hport]
    · simp [parse_proxy_line, he, hh, hsplit]
  · intro line he
    simp [parse_proxy_line, he]
  · intro line hh
    by_cases he : pyStrip line = ""
    · simp [parse_proxy_line, he]
    · simp [parse_proxy_line, he, hh]

/-- Witness for claim C1: the theorem applied to a concrete four-field
line. -/
theorem parse_proxy_line_correct_witness :
    parse_proxy_line "1.2.3.4:8080:user:pass" =
      some ⟨"1.2.3.4", 8080, some "user", some "pass"⟩ :=
  parse_proxy_line_correct.1 "1.2.3.4:8080:user:pass" "1.2.3.4" "8080"
    "user" "pass" 8080 (by decide) (by decide) (by decide)

/-- The temporary path is never the target path. -/
theorem tmpPath_ne (p : String) : tmpPath p ≠ p := by
  intro h
  have hl := congrArg String.length h
  rw [tmpPath, String.length_append] at hl
  simp at hl
  exact absurd hl (by decide)

/-- Claim C2: at every filesystem state reachable while `save_json`
runs — including every partially written prefix of the temporary file —
the target path holds either the complete old content or the complete
new content, because the data is written to `path + ".tmp"` and renamed
over the target in one step. -/
theorem save_json_atomic :
    ∀ (fs : FS) (path data : String), ∀ s ∈ save_json_states fs path data,
      s path = fs path ∨ s path = some data := by
  intro fs path data s hs
  simp only [save_json_states, List.mem_cons, List.mem_append,
    List.mem_map, List.mem_singleton] at hs
  rcases hs with h | ⟨c, _, h⟩ | h | h
  · left; rw [h]
  · left
    rw [← h]
    simp [setFile, (tmpPath_ne path).symm]
  · right
    rw [h]
    simp [renameFile, setFile]
  · exact absurd h (List.not_mem_nil s)

/-- Witness for claim C2: the theorem applied to the final state of a
concrete `save_json` run on the database file. -/
theorem save_json_atomic_witness :
    save_json (fun _ => none) DB_FILE "new" DB_FILE =
        (fun _ => none : FS) DB_FILE ∨
      save_json (fun _ => none) DB_FILE "new" DB_FILE = some "new" :=
  save_json_atomic (fun _ => none) DB_FILE "new"
    (save_json (fun _ => none) DB_FILE "new")
    (by simp [save_json_states, save_json])

/-- Claim C3: for a parsable endpoint line, `check_proxy` consults one
outbound request to `CHECK_TEST_URL` (an https URL) and classifies OK
exactly when a response was received with status code in `[200, 400)`;
the default per-request timeout constant is 20 seconds. -/
theorem check_proxy_classification :
    (∀ line info resp, parse_proxy_line line = some info →
      (check_proxy resp line = true ↔
        ∃ code, resp = some code ∧ 200 ≤ code ∧ code < 400)) ∧
    (∀ line info, parse_proxy_line line = some info →
      check_proxy_requests line = [CHECK_TEST_URL]) ∧
    CHECK_TIMEOUT = 20 ∧ isHttpsUrl CHECK_TEST_URL = true := by
  refine ⟨?_, ?_, rfl, by decide⟩
  · intro line info resp hp
    cases resp with
    | none => simp [check_proxy, hp]
    | some code => simp [check_proxy, hp]
  · intro line info hp
    simp [check_proxy_requests, hp]

/-- Witness for claim C3: the theorem applied to a concrete line and a
concrete 200 response. -/
theorem check_proxy_classification_witness :
    check_proxy (some 200) "1.1.1.1:80" = true :=
  (check_proxy_classification.1 "1.1.1.1:80" ⟨"1.1.1.1", 80, none, none⟩
      (some 200) (by decide)).mpr ⟨200, rfl, by decide, by decide⟩

/-- Claim C4: `check_proxy` is total — an unparsable line returns
`false` before any request, a raised request (timeout or connection
error, oracle `none`) returns `false` — so a round classifies every
line of its input, and the per-endpoint route always answers `ok` or
`fail`. -/
theorem check_proxy_total :
    (∀ resp line, parse_proxy_line line = none →
      check_proxy resp line = false) ∧
    (∀ line, check_proxy none line = false) ∧
    (∀ oracle lines, (run_round oracle lines).length = lines.length) ∧
    (∀ pf resp, (proxies_check_one pf resp).1 = "ok" ∨
      (proxies_check_one pf resp).1 = "fail") := by
  refine ⟨?_, ?_, ?_, ?_⟩
  · intro resp line hp
    simp [check_proxy, hp]
  · intro line
    unfold check_proxy
    cases parse_proxy_line line <;> rfl
  · intro oracle lines
    simp [run_round]
  · intro pf resp
    by_cases h : pyStrip (pf.getD "") = ""
    · right; simp [proxies_check_one, h]
    · cases hc : check_proxy resp (pyStrip (pf.getD "")) with
      | true => left; simp [proxies_check_one, h, hc]
      | false => right; simp [proxies_check_one, h, hc]

/-- Witness for claim C4: the theorem applied to a concrete unparsable
line with a concrete successful response. -/
theorem check_proxy_total_witness :
    check_proxy (some 200) "not a proxy line" = false :=
  check_proxy_total.1 (some 200) "not a proxy line" (by decide)

/-- Claim C5 counterexample: when the pool file is missing,
`load_proxy_list` returns the ordinary empty list — the same value it
returns for a file that exists and is empty — so the read produces an
empty round and carries no terminal signal that could stop a monitoring
loop. -/
theorem load_proxy_list_missing_counterexample :
    load_proxy_list (fun _ => none) = ([] : List String) ∧
    load_proxy_list (setFile (fun _ => none) PROXY_SOURCE_FILE "") =
      ([] : List String) := by
  constructor
  · rfl
  · simp [load_proxy_list, setFile, splitOnChar, pyStrip]

/-- Claim C5 as amended: when the pool file is missing, a read of the
published list returns the empty list (an empty round); missing and
empty files are indistinguishable to the reader and nothing is
terminal. -/
theorem load_proxy_list_missing :
    ∀ fs : FS, fs PROXY_SOURCE_FILE = none → load_proxy_list fs = [] := by
  intro fs h
  simp [load_proxy_list, h]

/-- Witness for the amended claim C5: the theorem applied to the empty
filesystem. -/
theorem load_proxy_list_missing_witness :
    load_proxy_list (fun _ => none) = [] :=
  load_proxy_list_missing (fun _ => none) rfl

/-- Claim C6: checking endpoints is read-only — `check_proxy`, the
per-endpoint check route, and any sequence of route calls leave the
whole filesystem state unchanged, in particular the pool file and the
database file byte for byte. -/
theorem checks_read_only :
    (∀ fs resp line, (check_proxy_st fs resp line).1 = fs) ∧
    (∀ fs pf resp, (proxies_check_one_st fs pf resp).1 = fs) ∧
    (∀ fs reqs, (run_checks fs reqs).1 PROXY_SOURCE_FILE =
        fs PROXY_SOURCE_FILE ∧
      (run_checks fs reqs).1 DB_FILE = fs DB_FILE ∧
      (run_checks fs reqs).1 = fs) := by
  have h : ∀ (reqs : List (Option String × Option Nat)) (fs : FS),
      (run_checks fs reqs).1 = fs := by
    intro reqs
    induction reqs with
    | nil => intro fs; rfl
    | cons a t ih =>
      intro fs
      cases a
      simp [run_checks, proxies_check_one_st, ih]
  exact ⟨fun _ _ _ => rfl, fun _ _ _ => rfl,
    fun fs reqs => ⟨by rw [h], by rw [h], h reqs fs⟩⟩

/-- Claim C7: with non-overlapping instance port ranges and at most
`2 * MAX_PER_INSTANCE` sessions, `sessionForPort` inverts the port of
`identityPort` for every valid index, and returns NotFound for any port
outside both ranges. -/
theorem allocator_round_trip :
    (∀ B1 B2 MAX N idx, idx < N → N ≤ 2 * MAX →
      (B1 + MAX ≤ B2 ∨ B2 + MAX ≤ B1) →
      sessionForPort B1 B2 MAX (identityPort B1 B2 MAX idx) = some idx) ∧
    (∀ B1 B2 MAX port, ¬(B1 ≤ port ∧ port < B1 + MAX) →
      ¬(B2 ≤ port ∧ port < B2 + MAX) →
      sessionForPort B1 B2 MAX port = none) := by
  constructor
  · intro B1 B2 MAX N idx hN h2 hdisj
    unfold identityPort sessionForPort
    by_cases h : idx < MAX
    · rw [if_pos h, if_pos (by omega)]
      congr 1
      omega
    · rw [if_neg h]
      rcases hdisj with hd | hd
      · rw [if_neg (by omega), if_pos (by omega)]
        congr 1
        omega
      · rw [if_neg (by omega), if_pos (by omega)]
        congr 1
        omega
  · intro B1 B2 MAX port h1 h2
    unfold sessionForPort
    rw [if_neg h1, if_neg h2]

/-- Witness for claim C7: the theorem applied at concrete base ports,
capacity and index, for both an instance-1 and an instance-2 index, and
an out-of-range port. -/
theorem allocator_round_trip_witness :
    sessionForPort 10000 20000 1500 (identityPort 10000 20000 1500 7) =
        some 7 ∧
      sessionForPort 10000 20000 1500 (identityPort 10000 20000 1500 2000) =
        some 2000 ∧
      sessionForPort 10000 20000 1500 99 = none :=
  ⟨allocator_round_trip.1 10000 20000 1500 3000 7 (by decide) (by decide)
      (Or.inl (by decide)),
    allocator_round_trip.1 10000 20000 1500 3000 2000 (by decide)
      (by decide) (Or.inl (by decide)),
    allocator_round_trip.2 10000 20000 1500 99 (by decide) (by decide)⟩

/-- Claim C8: a line is in the published list built by the verification
pass exactly when it is the formatted line of an input entry for which a
response was received and the observed public address equaled the
expected address; entries with no response or a mismatched address
contribute no line. -/
theorem verifyPublish_correct :
    ∀ (obs : RawEntry → Option String) (entries : List RawEntry)
      (line : String),
      line ∈ verifyPublish obs entries ↔
        ∃ e, e ∈ entries ∧ obs e = some e.address ∧
          line = formatEntry e := by
  intro obs entries line
  simp only [verifyPublish, List.mem_map, List.mem_filter,
    decide_eq_true_eq]
  constructor
  · rintro ⟨e, ⟨he, hacc⟩, hline⟩
    exact ⟨e, he, hacc, hline.symm⟩
  · rintro ⟨e, he, hacc, hline⟩
    exact ⟨e, ⟨he, hacc⟩, hline.symm⟩

/-- Witness for claim C8: the theorem applied to a concrete entry whose
observed address matches. -/
theorem verifyPublish_correct_witness :
    formatEntry ⟨"9.9.9.9", 3128, "user", "pass"⟩ ∈
      verifyPublish (fun _ => some "9.9.9.9")
        [⟨"9.9.9.9", 3128, "user", "pass"⟩] :=
  (verifyPublish_correct (fun _ => some "9.9.9.9")
      [⟨"9.9.9.9", 3128, "user", "pass"⟩]
      (formatEntry ⟨"9.9.9.9", 3128, "user", "pass"⟩)).mpr
    ⟨⟨"9.9.9.9", 3128, "user", "pass"⟩, List.mem_singleton.mpr rfl, rfl, rfl⟩

/-- Claim C10: for every database state and every pool file content the
stats add up — assigned plus available equals total, both non-negative —
because the assigned count is the size of the intersection of the
assigned keys with the lines currently in the file. -/
theorem compute_stats_arith :
    ∀ (db : DB) (fs : FS),
      (compute_stats db fs).assigned_proxies +
          (compute_stats db fs).available_proxies =
        (compute_stats db fs).total_proxies ∧
      0 ≤ (compute_stats db fs).assigned_proxies ∧
      0 ≤ (compute_stats db fs).available_proxies ∧
      (compute_stats db fs).assigned_proxies =
        (((keysOf db.assigned_proxies).toFinset ∩
          (load_proxy_list fs).toFinset).card : Int) := by
  intro db fs
  have hle : ((keysOf db.assigned_proxies).toFinset ∩
      (load_proxy_list fs).toFinset).card ≤ (load_proxy_list fs).length :=
    le_trans (Finset.card_le_card Finset.inter_subset_right)
      (List.toFinset_card_le _)
  refine ⟨?_, ?_, ?_, rfl⟩ <;> simp only [compute_stats] <;> omega

/-- A key is absent from the dictionary iff lookup yields nothing. -/
theorem dictGet_eq_none_iff (d : Dict) (k : String) :
    dictGet d k = none ↔ k ∉ keysOf d := by
  induction d with
  | nil => simp [dictGet, keysOf]
  | cons kv rest ih =>
    obtain ⟨k', v'⟩ := kv
    by_cases h : k = k'
    · simp [dictGet, keysOf, h]
    · simp [dictGet, keysOf, h, ih]

/-- Lookup after an update: the updated key reads the new value, any
other key is unchanged. -/
theorem dictGet_dictSet (d : Dict) (k : String) (v : Nat) (p : String) :
    dictGet (dictSet d k v) p = if p = k then some v else dictGet d p := by
  induction d with
  | nil =>
    by_cases hp : p = k <;> simp [dictSet, dictGet, hp]
  | cons kv rest ih =>
    obtain ⟨k', v'⟩ := kv
    by_cases h : k = k'
    · subst h
      by_cases hp : p = k <;> simp [dictSet, dictGet, hp]
    · by_cases hp : p = k'
      · subst hp
        have hpk : ¬p = k := fun hc => h hc.symm
        simp [dictSet, h, dictGet, hpk]
      · simp [dictSet, h, dictGet, hp, ih]

/-- A key is present exactly when lookup succeeds. -/
theorem mem_keysOf_iff (d : Dict) (p : String) :
    p ∈ keysOf d ↔ dictGet d p ≠ none := by
  rw [Ne, dictGet_eq_none_iff, not_not]

/-- The keys after an update are the old keys plus the updated key. -/
theorem mem_keysOf_dictSet (d : Dict) (k : String) (v : Nat) (p : String) :
    p ∈ keysOf (dictSet d k v) ↔ p ∈ keysOf d ∨ p = k := by
  rw [mem_keysOf_iff, dictGet_dictSet, mem_keysOf_iff]
  by_cases hp : p = k <;> simp [hp]

/-- An update keeps the keys unique. -/
theorem keysOf_dictSet_nodup (d : Dict) (k : String) (v : Nat)
    (h : (keysOf d).Nodup) : (keysOf (dictSet d k v)).Nodup := by
  induction d with
  | nil => simp [dictSet, keysOf]
  | cons kv rest ih =>
    obtain ⟨k', v'⟩ := kv
    simp only [keysOf, List.map_cons, List.nodup_cons] at h
    by_cases hk : k = k'
    · subst hk
      simpa [dictSet, keysOf] using h
    · simp only [dictSet]
      rw [if_neg hk]
      simp only [keysOf, List.map_cons, List.nodup_cons]
      refine ⟨?_, ih h.2⟩
      intro hmem
      rcases (mem_keysOf_dictSet rest k v k').mp hmem with h1 | h1
      · exact h.1 h1
      · exact hk h1.symm

/-- Removal returns a sublist of the dictionary. -/
theorem dictPop_sublist (d : Dict) (k : String) :
    List.Sublist (dictPop d k) (d : List (String × Nat)) := by
  induction d with
  | nil => simp [dictPop]
  | cons kv rest ih =>
    obtain ⟨k', v'⟩ := kv
    by_cases h : k = k'
    · simp [dictPop, h]
    · simpa [dictPop, h] using ih.cons₂ (k', v')

/-- Removal keeps the keys unique. -/
theorem keysOf_dictPop_nodup (d : Dict) (k : String)
    (h : (keysOf d).Nodup) : (keysOf (dictPop d k)).Nodup :=
  h.sublist ((dictPop_sublist d k).map Prod.fst)

/-- Lookup after a removal, for a dictionary with unique keys: the
removed key reads nothing, any other key is unchanged. -/
theorem dictGet_dictPop (d : Dict) (k : String) (p : String)
    (h : (keysOf d).Nodup) :
    dictGet (dictPop d k) p = if p = k then none else dictGet d p := by
  induction d with
  | nil => simp [dictPop, dictGet]
  | cons kv rest ih =>
    obtain ⟨k', v'⟩ := kv
    simp only [keysOf, List.map_cons, List.nodup_cons] at h
    by_cases hk : k = k'
    · subst hk
      by_cases hp : p = k
      · subst hp
        simp [dictPop, (dictGet_eq_none_iff rest p).mpr h.1]
      · simp [dictPop, dictGet, hp, fun hc : p = k => hp hc]
    · by_cases hp : p = k'
      · subst hp
        have hpk : ¬p = k := fun hc => hk hc.symm
        simp [dictPop, hk, dictGet, hpk]
      · simp [dictPop, hk, dictGet, hp, ih h.2]

/-- Lookup after assigning a batch of proxies to one client. -/
theorem dictGet_assignMany (ps : List String) (d : Dict) (cid : Nat)
    (p : String) :
    dictGet (assignMany d ps cid) p =
      if p ∈ ps then some cid else dictGet d p := by
  induction ps generalizing d with
  | nil => simp [assignMany]
  | cons q qs ih =>
    have hstep : assignMany d (q :: qs) cid =
        assignMany (dictSet d q cid) qs cid := rfl
    rw [hstep, ih]
    by_cases hq : p ∈ qs
    · simp [hq, List.mem_cons]
    · by_cases hpq : p = q <;>
        simp [hq, hpq, dictGet_dictSet, List.mem_cons]

/-- Assigning a batch keeps the keys unique. -/
theorem keysOf_assignMany_nodup (ps : List String) (d : Dict) (cid : Nat)
    (h : (keysOf d).Nodup) : (keysOf (assignMany d ps cid)).Nodup := by
  induction ps generalizing d with
  | nil => exact h
  | cons q qs ih => exact ih _ (keysOf_dictSet_nodup d q cid h)

/-- Popping a batch keeps the keys unique. -/
theorem keysOf_popMany_nodup (ps : List String) (d : Dict)
    (h : (keysOf d).Nodup) : (keysOf (popMany d ps)).Nodup := by
  induction ps generalizing d with
  | nil => exact h
  | cons q qs ih => exact ih _ (keysOf_dictPop_nodup d q h)

/-- Lookup after popping a batch of keys, for a dictionary with unique
keys: popped keys read nothing, others are unchanged. -/
theorem dictGet_popMany (ps : List String) (d : Dict) (p : String)
    (h : (keysOf d).Nodup) :
    dictGet (popMany d ps) p = if p ∈ ps then none else dictGet d p := by
  induction ps generalizing d with
  | nil => simp [popMany]
  | cons q qs ih =>
    have hstep : popMany d (q :: qs) = popMany (dictPop d q) qs := rfl
    rw [hstep, ih _ (keysOf_dictPop_nodup d q h)]
    by_cases hq : p ∈ qs
    · simp [hq, List.mem_cons]
    · by_cases hpq : p = q
      · subst hpq
        simp [hq, dictGet_dictPop d p p h]
      · simp [hq, hpq, dictGet_dictPop d q p h, List.mem_cons]

/-- Every client id is bounded by `maxId`. -/
theorem le_maxId {c : Client} {cs : List Client} (h : c ∈ cs) :
    c.id ≤ maxId cs := by
  induction cs with
  | nil => cases h
  | cons c' rest ih =>
    rcases List.mem_cons.mp h with h1 | h1
    · subst h1; exact le_max_left _ _
    · exact le_trans (ih h1) (le_max_right _ _)

/-- The fresh id produced by `next_client_id` is not an existing id. -/
theorem next_client_id_fresh (db : DB) :
    next_client_id db ∉ db.clients.map Client.id := by
  intro hmem
  obtain ⟨c, hc, hid⟩ := List.mem_map.mp hmem
  have hne : db.clients ≠ [] := by
    intro h0
    rw [h0] at hc
    cases hc
  rw [next_client_id, if_neg hne] at hid
  have hle : c.id ≤ maxId db.clients := le_maxId hc
  omega

/-- Membership in the proxies collected for a client id. -/
theorem mem_collectProxies {cs : List Client} {cid : Nat} {p : String} :
    p ∈ collectProxies cs cid ↔
      ∃ c, c ∈ cs ∧ c.id = cid ∧ p ∈ c.proxies := by
  induction cs with
  | nil => simp [collectProxies]
  | cons c rest ih =>
    by_cases h : c.id = cid
    · simp only [collectProxies, if_pos h, List.mem_append, ih]
      constructor
      · rintro (hp | ⟨c', h1, h2, h3⟩)
        exacts [⟨c, List.mem_cons_self c rest, h, hp⟩,
          ⟨c', List.mem_cons_of_mem c h1, h2, h3⟩]
      · rintro ⟨c', hmem, h2, h3⟩
        rcases List.mem_cons.mp hmem with h1 | h1
        · subst h1; exact Or.inl h3
        · exact Or.inr ⟨c', h1, h2, h3⟩
    · simp only [collectProxies, if_neg h, ih]
      constructor
      · rintro ⟨c', h1, h2, h3⟩
        exact ⟨c', List.mem_cons_of_mem c h1, h2, h3⟩
      · rintro ⟨c', hmem, h2, h3⟩
        rcases List.mem_cons.mp hmem with h1 | h1
        · exact absurd (h1 ▸ h2) h
        · exact ⟨c', h1, h2, h3⟩

/-- Appending a fresh client that takes only unassigned proxies keeps
the database well-formed. -/
theorem create_success_WF (db : DB) (name ts : String) (count : Int)
    (selected : List String)
    (hsel : ∀ p ∈ selected, dictGet db.assigned_proxies p = none)
    (h : WFdb db) :
    WFdb ⟨db.clients ++ [⟨next_client_id db, name, count, selected, ts⟩],
      assignMany db.assigned_proxies selected (next_client_id db)⟩ := by
  set cid := next_client_id db with hcid
  constructor
  · exact keysOf_assignMany_nodup selected _ cid h.keys_nodup
  · show (List.map Client.id
      (db.clients ++ [⟨cid, name, count, selected, ts⟩])).Nodup
    rw [List.map_append, List.nodup_append]
    refine ⟨h.ids_nodup, List.nodup_singleton _, ?_⟩
    intro a ha hb
    rcases List.mem_singleton.mp hb with rfl
    exact next_client_id_fresh db ha
  · intro p cid' hget
    rw [dictGet_assignMany] at hget
    by_cases hp : p ∈ selected
    · rw [if_pos hp] at hget
      injection hget with hcc
      exact ⟨⟨cid, name, count, selected, ts⟩,
        List.mem_append_right _ (List.mem_singleton.mpr rfl),
        hcc, hp⟩
    · rw [if_neg hp] at hget
      obtain ⟨c, hc, hcid', hpc⟩ := h.assigned_to_owner p cid' hget
      exact ⟨c, List.mem_append_left _ hc, hcid', hpc⟩
  · intro c hc p hp
    rw [dictGet_assignMany]
    rcases List.mem_append.mp hc with hcold | hcnew
    · have hold := h.owner_assigned c hcold p hp
      have hpns : p ∉ selected := by
        intro hps
        rw [hsel p hps] at hold
        exact Option.noConfusion hold
      rw [if_neg hpns]
      exact hold
    · rcases List.mem_singleton.mp hcnew with rfl
      rw [if_pos hp]
  · intro c hc c' hc' p hp hp'
    rcases List.mem_append.mp hc with h1 | h1 <;>
      rcases List.mem_append.mp hc' with h2 | h2
    · exact h.unique_owner c h1 c' h2 p hp hp'
    · exfalso
      rcases List.mem_singleton.mp h2 with rfl
      have hold := h.owner_assigned c h1 p hp
      rw [hsel p hp'] at hold
      exact Option.noConfusion hold
    · exfalso
      rcases List.mem_singleton.mp h1 with rfl
      have hold := h.owner_assigned c' h2 p hp'
      rw [hsel p hp] at hold
      exact Option.noConfusion hold
    · rw [List.mem_singleton.mp h1, List.mem_singleton.mp h2]

/-- Every proxy granted by a successful client creation was unassigned
beforehand. -/
theorem selected_unassigned (allP : List String) (db : DB) (n : Nat) :
    ∀ p ∈ (allP.filter
        (fun p => (dictGet db.assigned_proxies p).isNone)).take n,
      dictGet db.assigned_proxies p = none := by
  intro p hp
  have hpav : p ∈ allP.filter
      (fun p => (dictGet db.assigned_proxies p).isNone) :=
    (List.take_sublist _ _).subset hp
  exact Option.isNone_iff_eq_none.mp (List.mem_filter.mp hpav).2

/-- Client creation preserves well-formedness of the database. -/
theorem create_client_WF (allP : List String) (db : DB)
    (name cnt ts : String) (h : WFdb db) :
    WFdb (create_client allP db name cnt ts) := by
  simp only [create_client]
  by_cases h1 : name = ""
  · rw [if_pos h1]; exact h
  rw [if_neg h1]
  by_cases h2 : ((pyInt cnt).getD 0 : Int) ≤ 0
  · rw [if_pos h2]; exact h
  rw [if_neg h2]
  by_cases h3 : ((allP.filter
      (fun p => (dictGet db.assigned_proxies p).isNone)).length : Int) <
      (pyInt cnt).getD 0
  · rw [if_pos h3]; exact h
  rw [if_neg h3]
  exact create_success_WF db name ts _ _
    (selected_unassigned allP db _) h

/-- Client deletion preserves well-formedness of the database. -/
theorem delete_client_WF (db : DB) (cid : Nat) (h : WFdb db) :
    WFdb (delete_client db cid) := by
  constructor
  · exact keysOf_popMany_nodup _ _ h.keys_nodup
  · exact h.ids_nodup.sublist ((List.filter_sublist _).map Client.id)
  · intro p cid' hget
    rw [show (delete_client db cid).assigned_proxies =
        popMany db.assigned_proxies (collectProxies db.clients cid)
      from rfl, dictGet_popMany _ _ _ h.keys_nodup] at hget
    by_cases hp : p ∈ collectProxies db.clients cid
    · rw [if_pos hp] at hget
      exact Option.noConfusion hget
    · rw [if_neg hp] at hget
      obtain ⟨c, hc, hcid', hpc⟩ := h.assigned_to_owner p cid' hget
      have hcne : c.id ≠ cid := by
        intro he
        exact hp (mem_collectProxies.mpr ⟨c, hc, he, hpc⟩)
      exact ⟨c, List.mem_filter.mpr ⟨hc, by simp [hcne]⟩, hcid', hpc⟩
  · intro c hc p hp
    have hc' := List.mem_filter.mp hc
    have hcne : c.id ≠ cid := by simpa using hc'.2
    rw [show (delete_client db cid).assigned_proxies =
        popMany db.assigned_proxies (collectProxies db.clients cid)
      from rfl, dictGet_popMany _ _ _ h.keys_nodup]
    have hpn : p ∉ collectProxies db.clients cid := by
      intro hpc
      obtain ⟨c'', hc'', hid'', hp''⟩ := mem_collectProxies.mp hpc
      exact hcne ((h.unique_owner c hc'.1 c'' hc'' p hp hp'') ▸ hid'')
    rw [if_neg hpn]
    exact h.owner_assigned c hc'.1 p hp
  · intro c hc c' hc' p hp hp'
    exact h.unique_owner c (List.mem_filter.mp hc).1 c'
      (List.mem_filter.mp hc').1 p hp hp'

/-- Client creation never reassigns a proxy: a binding changed by
`create_client` was absent before. -/
theorem create_client_assigns_unassigned (allP : List String) (db : DB)
    (name cnt ts : String) (p : String)
    (hne : dictGet (create_client allP db name cnt ts).assigned_proxies p ≠
      dictGet db.assigned_proxies p) :
    dictGet db.assigned_proxies p = none := by
  simp only [create_client] at hne
  by_cases h1 : name = ""
  · rw [if_pos h1] at hne; exact absurd rfl hne
  rw [if_neg h1] at hne
  by_cases h2 : ((pyInt cnt).getD 0 : Int) ≤ 0
  · rw [if_pos h2] at hne; exact absurd rfl hne
  rw [if_neg h2] at hne
  by_cases h3 : ((allP.filter
      (fun p => (dictGet db.assigned_proxies p).isNone)).length : Int) <
      (pyInt cnt).getD 0
  · rw [if_pos h3] at hne; exact absurd rfl hne
  rw [if_neg h3] at hne
  rw [show (DB.mk (db.clients ++ [⟨next_client_id db, name,
        (pyInt cnt).getD 0,
        (allP.filter
          (fun p => (dictGet db.assigned_proxies p).isNone)).take
            ((pyInt cnt).getD 0).toNat, ts⟩])
      (assignMany db.assigned_proxies
        ((allP.filter
          (fun p => (dictGet db.assigned_proxies p).isNone)).take
            ((pyInt cnt).getD 0).toNat)
        (next_client_id db))).assigned_proxies =
      assignMany db.assigned_proxies
        ((allP.filter
          (fun p => (dictGet db.assigned_proxies p).isNone)).take
            ((pyInt cnt).getD 0).toNat)
        (next_client_id db) from rfl,
    dictGet_assignMany] at hne
  by_cases hp : p ∈ (allP.filter
      (fun p => (dictGet db.assigned_proxies p).isNone)).take
        ((pyInt cnt).getD 0).toNat
  · exact selected_unassigned allP db _ p hp
  · rw [if_neg hp] at hne
    exact absurd rfl hne

/-- Client deletion removes exactly the bindings of the deleted client:
a proxy bound to the deleted id becomes unbound, every other binding is
unchanged. -/
theorem delete_client_exact (db : DB) (cid : Nat) (p : String)
    (h : WFdb db) :
    dictGet (delete_client db cid).assigned_proxies p =
      if dictGet db.assigned_proxies p = some cid then none
      else dictGet db.assigned_proxies p := by
  rw [show (delete_client db cid).assigned_proxies =
      popMany db.assigned_proxies (collectProxies db.clients cid)
    from rfl, dictGet_popMany _ _ _ h.keys_nodup]
  by_cases hp : p ∈ collectProxies db.clients cid
  · rw [if_pos hp]
    obtain ⟨c, hc, hid, hpc⟩ := mem_collectProxies.mp hp
    rw [if_pos (by rw [h.owner_assigned c hc p hpc, hid])]
  · rw [if_neg hp]
    by_cases hg : dictGet db.assigned_proxies p = some cid
    · exfalso
      obtain ⟨c, hc, hcid, hpc⟩ := h.assigned_to_owner p cid hg
      exact hp (mem_collectProxies.mpr ⟨c, hc, hcid, hpc⟩)
    · rw [if_neg hg]

/-- Claim C9: starting from a well-formed database, client creation and
client deletion preserve the invariant that the key set of
`assigned_proxies` is the union of the proxies of all clients, each key
mapped to the id of the unique owning client; creation only assigns
proxies that were unassigned, and deletion unbinds exactly the deleted
client bindings. -/
theorem client_db_invariant :
    (∀ allP db name cnt ts, WFdb db →
      WFdb (create_client allP db name cnt ts)) ∧
    (∀ db cid, WFdb db → WFdb (delete_client db cid)) ∧
    (∀ allP db name cnt ts p,
      dictGet (create_client allP db name cnt ts).assigned_proxies p ≠
        dictGet db.assigned_proxies p →
      dictGet db.assigned_proxies p = none) ∧
    (∀ db cid p, WFdb db →
      dictGet (delete_client db cid).assigned_proxies p =
        if dictGet db.assigned_proxies p = some cid then none
        else dictGet db.assigned_proxies p) :=
  ⟨fun allP db name cnt ts h => create_client_WF allP db name cnt ts h,
    fun db cid h => delete_client_WF db cid h,
    fun allP db name cnt ts p hne =>
      create_client_assigns_unassigned allP db name cnt ts p hne,
    fun db cid p h => delete_client_exact db cid p h⟩

/-- Witness for claim C9: the theorem applied to a concrete well-formed
database, a concrete creation and a concrete deletion. -/
theorem client_db_invariant_witness :
    WFdb (create_client ["10.0.0.1:80", "10.0.0.2:80"] ⟨[], []⟩ "alice"
      "1" "2026-01-01") ∧
    WFdb (delete_client ⟨[], []⟩ 1) :=
  ⟨client_db_invariant.1 ["10.0.0.1:80", "10.0.0.2:80"] ⟨[], []⟩ "alice"
      "1" "2026-01-01"
      ⟨by simp [keysOf], by simp, fun p cid hg => absurd hg (by simp [dictGet]),
        fun c hc => absurd hc (by simp), fun c hc => absurd hc (by simp)⟩,
    client_db_invariant.2.1 ⟨[], []⟩ 1
      ⟨by simp [keysOf], by simp, fun p cid hg => absurd hg (by simp [dictGet]),
        fun c hc => absurd hc (by simp), fun c hc => absurd hc (by simp)⟩⟩

end ProxyPanel
